import Mathlib

/-!
Verification of the reconciliation / correction / prioritization core of the
hybrid OCR repository.  Python functions from `hybrid_processor.py`,
`pattern_manager.py` and `user_verification.py` are shallowly embedded as
executable Lean definitions: Python strings become `List Char`, Python floats
become `ℚ`, Python dicts become structures, and the regex engine and image
cropper (external collaborators) become oracle function parameters.
-/

namespace HybridOCR

/-- A bounding box `(x1, y1, x2, y2)` in pixel space, as used throughout
`hybrid_processor.py`. -/
structure Box where
  x1 : ℚ
  y1 : ℚ
  x2 : ℚ
  y2 : ℚ
deriving DecidableEq, Repr

/-- One raw OCR detection dict (`{text, bbox, confidence, engine}`) as built by
the engine-output formatters in `hybrid_processor.py`. -/
structure Detection where
  text : List Char
  bbox : Box
  confidence : ℚ
  engine : String
deriving DecidableEq, Repr

/-- The `TextRegion` dataclass of `hybrid_processor.py`. -/
structure TextRegion where
  text : List Char
  bbox : Box
  confidence : ℚ
  region_type : String
deriving DecidableEq, Repr

/-- Python's substring test `pat in s` on character lists. -/
def occursIn (pat : List Char) : List Char → Bool
  | [] => pat.isEmpty
  | c :: t => pat.isPrefixOf (c :: t) || occursIn pat t

/-- Replacement scan for a non-empty pattern: Python's left-to-right,
non-overlapping `str.replace`. -/
def replaceScan (old new : List Char) (s : List Char) : List Char :=
  if h : old = [] then s
  else
    match s with
    | [] => []
    | c :: t =>
      if old.isPrefixOf (c :: t) then new ++ replaceScan old new ((c :: t).drop old.length)
      else c :: replaceScan old new t
termination_by s.length
decreasing_by
  · simp only [List.length_drop, List.length_cons]
    have hpos : 0 < old.length := List.length_pos.mpr h
    omega
  · simp

/-- Python's `s.replace(old, new)` (all occurrences).  An empty `old` inserts
`new` before every character and at the end, as CPython does. -/
def pyReplace (s old new : List Char) : List Char :=
  if old = [] then new ++ (s.map (fun c => c :: new)).flatten
  else replaceScan old new s

/-- Python's `s.strip()`: remove whitespace from both ends. -/
def pyStrip (s : List Char) : List Char :=
  ((s.dropWhile Char.isWhitespace).reverse.dropWhile Char.isWhitespace).reverse

/-- The box-overlap predicate `HybridProcessor._boxes_overlap`: a horizontal-gap
pre-filter (50 px), then intersection-over-union against `threshold`. -/
def boxes_overlap (box1 box2 : Box) (threshold : ℚ := 3/10) : Bool :=
  let horizontal_gap := if box2.x1 > box1.x2 then |box2.x1 - box1.x2| else |box1.x1 - box2.x2|
  if horizontal_gap > 50 then false
  else
    let x_left := max box1.x1 box2.x1
    let y_top := max box1.y1 box2.y1
    let x_right := min box1.x2 box2.x2
    let y_bottom := min box1.y2 box2.y2
    if x_right < x_left ∨ y_bottom < y_top then false
    else
      let intersection_area := (x_right - x_left) * (y_bottom - y_top)
      let box1_area := (box1.x2 - box1.x1) * (box1.y2 - box1.y1)
      let box2_area := (box2.x2 - box2.x1) * (box2.y2 - box2.y1)
      let union_area := box1_area + box2_area - intersection_area
      let iouVal := if union_area > 0 then intersection_area / union_area else 0
      decide (iouVal ≥ threshold)

/-- Geometric intersection-over-union of two boxes (the quantity the spec's
0.3 threshold refers to; intersection clamped at zero for disjoint boxes). -/
def iou (box1 box2 : Box) : ℚ :=
  let inter := max 0 (min box1.x2 box2.x2 - max box1.x1 box2.x1) *
    max 0 (min box1.y2 box2.y2 - max box1.y1 box2.y1)
  let union := (box1.x2 - box1.x1) * (box1.y2 - box1.y1) +
    (box2.x2 - box2.x1) * (box2.y2 - box2.y1) - inter
  if union > 0 then inter / union else 0

/-- Geometric horizontal gap between two boxes: the horizontal distance between
them when they are side by side, and `0` when their x-ranges touch or overlap. -/
def horizontalGap (box1 box2 : Box) : ℚ :=
  if box2.x1 > box1.x2 then box2.x1 - box1.x2
  else if box1.x1 > box2.x2 then box1.x1 - box2.x2
  else 0

/-- The greedy clustering pass of `HybridProcessor._smart_merge_ocr_results`:
each still-unused detection seeds a cluster consisting of itself and every
later unused detection whose box overlaps the seed's box. -/
def smartClusters : List Detection → List (List Detection)
  | [] => []
  | d :: rest =>
    (d :: rest.filter (fun e => boxes_overlap d.bbox e.bbox)) ::
      smartClusters (rest.filter (fun e => !boxes_overlap d.bbox e.bbox))
termination_by l => l.length
decreasing_by
  have := List.length_filter_le (fun e => !boxes_overlap d.bbox e.bbox) rest
  simp only [List.length_cons]
  omega

/-- Python's `max(iterable, key=key)` on a non-empty list given as head and
tail: the first element with maximal key. -/
def pyMaxBy {α : Type} (key : α → ℚ) : α → List α → α
  | best, [] => best
  | best, x :: rest => pyMaxBy key (if key x > key best then x else best) rest

/-- Minimum of a head element and a list (Python's `min` over a non-empty list). -/
def listMin (x : ℚ) (xs : List ℚ) : ℚ := xs.foldl min x

/-- Maximum of a head element and a list (Python's `max` over a non-empty list). -/
def listMax (x : ℚ) (xs : List ℚ) : ℚ := xs.foldl max x

/-- The handwriting classifier `HybridProcessor._detect_region_type`. -/
def detect_region_type (detection : Detection) (confidence : ℚ) : String :=
  if confidence < 1/2 then "handwritten"
  else
    let text := detection.text
    let indicators : List Bool :=
      [decide (text.length < 15),
       "`~|".data.any (fun c => text.contains c),
       decide (confidence < 3/5 ∧ text.length > 5)]
    if 2 ≤ indicators.countP id then "handwritten" else "printed"

/-- Merging one cluster: `HybridProcessor._merge_overlapping_detections`.
Text comes from the member maximizing `confidence * len(text)`, confidence is
the arithmetic mean, the box is the coordinate-wise hull. -/
def merge_overlapping_detections : List Detection → Option TextRegion
  | [] => none
  | d :: rest =>
    let detections := d :: rest
    let best := pyMaxBy (fun x => x.confidence * x.text.length) d rest
    let avg_confidence := (detections.map (·.confidence)).sum / (detections.length : ℚ)
    let merged_bbox : Box :=
      ⟨listMin d.bbox.x1 (rest.map (·.bbox.x1)),
       listMin d.bbox.y1 (rest.map (·.bbox.y1)),
       listMax d.bbox.x2 (rest.map (·.bbox.x2)),
       listMax d.bbox.y2 (rest.map (·.bbox.y2))⟩
    some ⟨best.text, merged_bbox, avg_confidence, detect_region_type best avg_confidence⟩

/-- The reconciler `HybridProcessor._smart_merge_ocr_results`: flatten the
per-engine result dict (in iteration order), cluster greedily, merge each
cluster. -/
def smart_merge_ocr_results (ocr_results : List (String × List Detection)) : List TextRegion :=
  let all_detections := (ocr_results.map Prod.snd).flatten
  (smartClusters all_detections).filterMap merge_overlapping_detections

/-- The `OCRPattern` dataclass of `pattern_manager.py`. -/
structure OCRPattern where
  pattern_id : ℤ
  wrong_text : List Char
  correct_text : List Char
  context_type : String
  priority : ℤ
  confidence_boost : ℚ
  enabled : Bool
  language : String
  notes : String
deriving DecidableEq, Repr

/-- Accumulator of `PatternManager.apply_ocr_corrections`: the running corrected
text, the summed boost, and the number of corrections applied. -/
structure CorrectionState where
  corrected_text : List Char
  total_boost : ℚ
  corrections_applied : ℕ
deriving DecidableEq, Repr

/-- One loop iteration of `PatternManager.apply_ocr_corrections`: skip disabled
patterns; skip a pattern when both its context type and the call's context are
specific and differ; otherwise replace every occurrence of `wrong_text`
(deletion for the `"EMPTY"` sentinel) and accumulate the boost. -/
def applyOcrStep (context : String) (st : CorrectionState) (p : OCRPattern) : CorrectionState :=
  if p.enabled = false then st
  else if (p.context_type ≠ "any" ∧ context ≠ "any") ∧ p.context_type ≠ context then st
  else if occursIn p.wrong_text st.corrected_text then
    { corrected_text :=
        if p.correct_text = "EMPTY".data then pyReplace st.corrected_text p.wrong_text []
        else pyReplace st.corrected_text p.wrong_text p.correct_text,
      total_boost := st.total_boost + p.confidence_boost,
      corrections_applied := st.corrections_applied + 1 }
  else st

/-- The correction pipeline `PatternManager.apply_ocr_corrections`: fold the
step over the loaded patterns, then return the corrected text together with
the average boost of the applied corrections, capped at `0.5`. -/
def apply_ocr_corrections (patterns : List OCRPattern) (text : List Char)
    (context : String) : List Char × ℚ :=
  if text = [] then (text, 0)
  else
    let final := patterns.foldl (applyOcrStep context) ⟨text, 0, 0⟩
    let avg_boost : ℚ :=
      if 0 < final.corrections_applied then final.total_boost / final.corrections_applied else 0
    (final.corrected_text, min avg_boost (1/2))

/-- Modelled from the spec sentence for claim comparison: one iteration of
`applyCorrections` as the specification words it, where a rule applies exactly
when its `contextType` is `"any"` or equals the given context. -/
def applyCorrectionsSpecStep (context : String) (st : CorrectionState)
    (p : OCRPattern) : CorrectionState :=
  if p.enabled = false then st
  else if ¬ (p.context_type = "any" ∨ p.context_type = context) then st
  else if occursIn p.wrong_text st.corrected_text then
    { corrected_text :=
        if p.correct_text = "EMPTY".data then pyReplace st.corrected_text p.wrong_text []
        else pyReplace st.corrected_text p.wrong_text p.correct_text,
      total_boost := st.total_boost + p.confidence_boost,
      corrections_applied := st.corrections_applied + 1 }
  else st

/-- Modelled from the spec sentence for claim comparison: `applyCorrections` as
the specification words it (rules whose `contextType` is `"any"` or equals the
given context; mean boost over matched rules capped at `0.5`, `0` if none). -/
def applyCorrectionsSpec (patterns : List OCRPattern) (text : List Char)
    (context : String) : List Char × ℚ :=
  let final := patterns.foldl (applyCorrectionsSpecStep context) ⟨text, 0, 0⟩
  let avg_boost : ℚ :=
    if 0 < final.corrections_applied then final.total_boost / final.corrections_applied else 0
  (final.corrected_text, min avg_boost (1/2))

/-- Amended reading of the correction contract: one iteration, where a rule
applies when its `contextType` is `"any"`, or the given context is `"any"`, or
the two are equal. -/
def applyCorrectionsAmendedStep (context : String) (st : CorrectionState)
    (p : OCRPattern) : CorrectionState :=
  if p.enabled = false then st
  else if ¬ (p.context_type = "any" ∨ context = "any" ∨ p.context_type = context) then st
  else if occursIn p.wrong_text st.corrected_text then
    { corrected_text :=
        if p.correct_text = "EMPTY".data then pyReplace st.corrected_text p.wrong_text []
        else pyReplace st.corrected_text p.wrong_text p.correct_text,
      total_boost := st.total_boost + p.confidence_boost,
      corrections_applied := st.corrections_applied + 1 }
  else st

/-- Amended reading of the correction contract: empty text is returned
unchanged with zero boost; otherwise rules matching the amended context
condition are applied in order and the mean boost is capped at `0.5`. -/
def applyCorrectionsAmended (patterns : List OCRPattern) (text : List Char)
    (context : String) : List Char × ℚ :=
  if text = [] then (text, 0)
  else
    let final := patterns.foldl (applyCorrectionsAmendedStep context) ⟨text, 0, 0⟩
    let avg_boost : ℚ :=
      if 0 < final.corrections_applied then final.total_boost / final.corrections_applied else 0
    (final.corrected_text, min avg_boost (1/2))

/-- The `ContextRule` dataclass of `pattern_manager.py`.  The `action_value`
field is modelled after its `float(...)` conversion. -/
structure ContextRule where
  rule_id : ℤ
  rule_name : String
  trigger_pattern : String
  context_window : String
  validation_logic : String
  action_type : String
  action_value : ℚ
  priority : ℤ
  enabled : Bool
  language : String
deriving DecidableEq, Repr

/-- Accumulator of `PatternManager.apply_context_rules`. -/
structure ContextRuleState where
  processed_text : List Char
  total_boost : ℚ
  rules_applied : ℕ
deriving DecidableEq, Repr

/-- One loop iteration of `PatternManager.apply_context_rules`.  The regex
engine (`re.search`, case-insensitive) is an oracle parameter `reSearch`
taking the trigger pattern and the text.  Rules with action `replace` or
`validate_format` fall through to `pass` in the source. -/
def applyContextStep (reSearch : String → List Char → Bool)
    (st : ContextRuleState) (rule : ContextRule) : ContextRuleState :=
  if rule.enabled = false then st
  else if reSearch rule.trigger_pattern st.processed_text then
    if rule.action_type = "boost_confidence" then
      { st with total_boost := st.total_boost + rule.action_value,
                rules_applied := st.rules_applied + 1 }
    else st
  else st

/-- The context-rule pass `PatternManager.apply_context_rules`: fold over the
rules, return the processed text and the mean boost of applied rules capped at
`0.3`.  The unused `context` dict parameter of the source is kept as an
argument. -/
def apply_context_rules (reSearch : String → List Char → Bool)
    (rules : List ContextRule) (text : List Char)
    (context : List (String × String)) : List Char × ℚ :=
  if text = [] then (text, 0)
  else
    let final := rules.foldl (applyContextStep reSearch) ⟨text, 0, 0⟩
    let avg_boost : ℚ :=
      if 0 < final.rules_applied then final.total_boost / final.rules_applied else 0
    (final.processed_text, min avg_boost (3/10))

/-- In-memory rule append `PatternManager.add_pattern_from_verification`: build
a pattern with id `len + 1`, drop it if its `(wrong, correct)` pair already
occurs, otherwise append and stably re-sort by ascending priority. -/
def add_pattern_from_verification (patterns : List OCRPattern)
    (wrong_text correct_text : List Char) (category context_type : String) :
    List OCRPattern × Bool :=
  let new_pattern : OCRPattern :=
    { pattern_id := (patterns.length : ℤ) + 1,
      wrong_text := wrong_text,
      correct_text := correct_text,
      context_type := context_type,
      priority := 1,
      confidence_boost := 1/5,
      enabled := true,
      language := "ANY",
      notes := "Auto-generated from user verification" }
  if patterns.any (fun e => decide (e.wrong_text = wrong_text ∧ e.correct_text = correct_text)) then
    (patterns, false)
  else
    ((patterns ++ [new_pattern]).mergeSort (fun a b => decide (a.priority ≤ b.priority)), true)

/-- A row of `OCR_Patterns_Template.csv` as consumed by
`PatternManager._load_ocr_patterns` and produced by
`UserVerificationSystem._update_pattern_csv`. -/
structure PatternRow where
  pattern_id : ℤ
  wrong_text : List Char
  correct_text : List Char
  context_type : String
  priority : ℤ
  confidence_boost : ℚ
  enabled : Bool
  language : String
  notes : String
deriving DecidableEq, Repr

/-- Conversion of one enabled CSV row into an `OCRPattern`, as in the loader
loop of `PatternManager._load_ocr_patterns`. -/
def rowToPattern (r : PatternRow) : OCRPattern :=
  { pattern_id := r.pattern_id,
    wrong_text := r.wrong_text,
    correct_text := r.correct_text,
    context_type := r.context_type,
    priority := r.priority,
    confidence_boost := r.confidence_boost,
    enabled := r.enabled,
    language := r.language,
    notes := r.notes }

/-- The loader `PatternManager._load_ocr_patterns`: keep rows whose `Enabled`
cell is truthy, convert each to an `OCRPattern`, and stably sort by ascending
priority. -/
def load_ocr_patterns (rows : List PatternRow) : List OCRPattern :=
  ((rows.filter (·.enabled)).map rowToPattern).mergeSort
    (fun a b => decide (a.priority ≤ b.priority))

/-- A pattern dict built by
`UserVerificationSystem._generate_patterns_from_correction`, before the
`Pattern_ID` cell is assigned by `_update_pattern_csv`. -/
structure NewPatternDict where
  wrong_text : List Char
  correct_text : List Char
  category : String
  context_type : String
  priority : ℤ
  confidence_boost : ℚ
  enabled : Bool
  language : String
  notes : String
deriving DecidableEq, Repr

/-- The CSV row written for a new pattern dict once `_update_pattern_csv` has
assigned it the id `next_id`. -/
def dictToRow (p : NewPatternDict) (next_id : ℤ) : PatternRow :=
  { pattern_id := next_id,
    wrong_text := p.wrong_text,
    correct_text := p.correct_text,
    context_type := p.context_type,
    priority := p.priority,
    confidence_boost := p.confidence_boost,
    enabled := p.enabled,
    language := p.language,
    notes := p.notes }

/-- One loop iteration of `UserVerificationSystem._update_pattern_csv` over the
pair (current data frame, next id): assign the id, then skip exact
`(Wrong_Text, Correct_Text)` duplicates of any current row, else append. -/
def updateCsvStep (acc : List PatternRow × ℤ) (p : NewPatternDict) :
    List PatternRow × ℤ :=
  let df := acc.1
  let next_id := acc.2
  if df ≠ [] ∧ df.any
      (fun r => decide (r.wrong_text = p.wrong_text ∧ r.correct_text = p.correct_text)) then
    (df, next_id + 1)
  else
    (df ++ [dictToRow p next_id], next_id + 1)

/-- Maximum `Pattern_ID` of a non-empty data frame (`df["Pattern_ID"].max()`). -/
def maxPatternId : List PatternRow → ℤ
  | [] => 0
  | r :: rest => (rest.map (·.pattern_id)).foldl max r.pattern_id

/-- The CSV writer `UserVerificationSystem._update_pattern_csv`: start the id
counter at `1` on an empty file and at `max + 1` otherwise, then fold the
append step over the new pattern dicts. -/
def update_pattern_csv (rows : List PatternRow) (patterns : List NewPatternDict) :
    List PatternRow :=
  let next_id : ℤ := if rows = [] then 1 else maxPatternId rows + 1
  (patterns.foldl updateCsvStep (rows, next_id)).1

/-- A merged region dict as consumed by
`UserVerificationSystem.get_regions_for_verification`
(`{text, bbox, confidence, region_type}`). -/
structure Region where
  text : List Char
  bbox : Box
  confidence : ℚ
  region_type : String
deriving DecidableEq, Repr

/-- The `VerificationRegion` dataclass of `user_verification.py`. -/
structure VerificationRegion where
  region_id : ℕ
  text : List Char
  bbox : Box
  confidence : ℚ
  region_type : String
  cropped_image_b64 : String
  priority_score : ℚ
  document_id : String
deriving DecidableEq, Repr

/-- The fixed list of known-bad-OCR substrings of
`UserVerificationSystem._calculate_priority_score`. -/
def suspicious_chars : List (List Char) :=
  ["`".data, "~".data, "|".data, "io8".data, "9025".data, "Fcbruar".data]

/-- The priority scorer `UserVerificationSystem._calculate_priority_score`:
accumulate `+0.4` for confidence below the verification threshold `0.5`,
`+0.3` for handwritten regions, `+0.3` for suspicious substrings, `+0.2` for
trimmed length below `5`, capped at `1.0`. -/
def calculate_priority_score (region : Region) : ℚ :=
  let score : ℚ := 0
  let score := if region.confidence < 1/2 then score + 2/5 else score
  let score := if region.region_type = "handwritten" then score + 3/10 else score
  let score := if suspicious_chars.any (fun c => occursIn c region.text) then score + 3/10 else score
  let score := if (pyStrip region.text).length < 5 then score + 1/5 else score
  min score 1

/-- The selection loop of `UserVerificationSystem.get_regions_for_verification`
over the enumerated regions, with the image cropper as an oracle `crop`. -/
def collectVerificationRegions (crop : Box → String) (document_id : String) :
    ℕ → List Region → List VerificationRegion
  | _, [] => []
  | i, r :: rest =>
    let s := calculate_priority_score r
    if s > 3/10 then
      { region_id := i,
        text := r.text,
        bbox := r.bbox,
        confidence := r.confidence,
        region_type := r.region_type,
        cropped_image_b64 := crop r.bbox,
        priority_score := s,
        document_id := document_id } :: collectVerificationRegions crop document_id (i + 1) rest
    else collectVerificationRegions crop document_id (i + 1) rest

/-- The prioritizer `UserVerificationSystem.get_regions_for_verification`:
collect regions whose priority score exceeds `0.3`, stably sort by descending
score, and keep the top `10`. -/
def get_regions_for_verification (regions : List Region) (crop : Box → String)
    (document_id : String) : List VerificationRegion :=
  ((collectVerificationRegions crop document_id 0 regions).mergeSort
    (fun a b => decide (b.priority_score ≤ a.priority_score))).take 10

/-- The pattern used to separate the implemented context condition from the
specified one: a specific context type, applied with context `"any"`. -/
def c2Pattern : OCRPattern :=
  { pattern_id := 1,
    wrong_text := "a".data,
    correct_text := "b".data,
    context_type := "date",
    priority := 1,
    confidence_boost := 1/5,
    enabled := true,
    language := "ANY",
    notes := "" }

/-- A concrete region for instantiating the priority-score theorems. -/
def sampleRegion : Region :=
  { text := "ab".data, bbox := ⟨0, 0, 4, 4⟩, confidence := 2/5, region_type := "printed" }

/-- A concrete region scoring `0.9`, for instantiating the selection theorem. -/
def flaggedRegion : Region :=
  { text := "x".data, bbox := ⟨0, 0, 4, 4⟩, confidence := 0, region_type := "handwritten" }

/-- A detection far to the left of `farDetB`. -/
def farDetA : Detection :=
  { text := "kiri".data, bbox := ⟨0, 0, 10, 10⟩, confidence := 1, engine := "easyocr" }

/-- A detection far to the right of `farDetA` (gap 90 px, IoU 0). -/
def farDetB : Detection :=
  { text := "kanan".data, bbox := ⟨100, 0, 110, 10⟩, confidence := 1, engine := "tesseract" }

/-- First engine's detection of the text at box `(0,0,60,20)`. -/
def dupDetA : Detection :=
  { text := "108".data, bbox := ⟨0, 0, 60, 20⟩, confidence := 9/10, engine := "easyocr" }

/-- Second engine's detection of the same text at the identical box. -/
def dupDetB : Detection :=
  { text := "1O8".data, bbox := ⟨0, 0, 60, 20⟩, confidence := 4/5, engine := "tesseract" }

/-- A one-detection cluster for instantiating the merge theorems. -/
def soloDet : Detection :=
  { text := "hello".data, bbox := ⟨0, 0, 30, 10⟩, confidence := 1, engine := "easyocr" }

/-- A stored CSV row for instantiating the round-trip theorem. -/
def baseRow : PatternRow :=
  { pattern_id := 1, wrong_text := "teh".data, correct_text := "the".data,
    context_type := "any", priority := 1, confidence_boost := 1/10,
    enabled := true, language := "ANY", notes := "" }

/-- A freshly learned pattern dict for instantiating the round-trip theorem. -/
def newDict : NewPatternDict :=
  { wrong_text := "adn".data, correct_text := "and".data, category := "Text",
    context_type := "any", priority := 1, confidence_boost := 1/5,
    enabled := true, language := "ANY",
    notes := "Auto-generated from user correction" }

/-- An existing in-memory pattern whose id is `2` although only one pattern is
loaded. -/
def oldPat : OCRPattern :=
  { pattern_id := 2, wrong_text := "a".data, correct_text := "b".data,
    context_type := "any", priority := 1, confidence_boost := 1/10,
    enabled := true, language := "ANY", notes := "" }

/-- An existing in-memory pattern with the well-formed id `1`. -/
def patOne : OCRPattern :=
  { pattern_id := 1, wrong_text := "teh".data, correct_text := "the".data,
    context_type := "any", priority := 1, confidence_boost := 1/10,
    enabled := true, language := "ANY", notes := "" }

section ContextRuleTheorems

theorem applyContextStep_text (f : String → List Char → Bool)
    (st : ContextRuleState) (rule : ContextRule) :
    (applyContextStep f st rule).processed_text = st.processed_text := by
  unfold applyContextStep
  split_ifs <;> rfl

theorem foldl_applyContextStep_text (f : String → List Char → Bool)
    (rules : List ContextRule) :
    ∀ st : ContextRuleState,
      (rules.foldl (applyContextStep f) st).processed_text = st.processed_text := by
  induction rules with
  | nil => intro st; rfl
  | cons rule rest ih =>
    intro st
    rw [List.foldl_cons, ih (applyContextStep f st rule), applyContextStep_text]

/-- C10: `apply_context_rules` returns its input text unchanged for every
regex oracle, rule list, text and context dict: only the returned boost
depends on which rules match, and the `replace` / `validate_format` action
branches modify nothing. -/
theorem apply_context_rules_text_frame (f : String → List Char → Bool)
    (rules : List ContextRule) (text : List Char)
    (context : List (String × String)) :
    (apply_context_rules f rules text context).1 = text := by
  unfold apply_context_rules
  split_ifs with h
  · rfl
  · exact foldl_applyContextStep_text f rules ⟨text, 0, 0⟩

end ContextRuleTheorems

section CorrectionTheorems

theorem applyOcrStep_eq_amended (context : String) (st : CorrectionState)
    (p : OCRPattern) :
    applyOcrStep context st p = applyCorrectionsAmendedStep context st p := by
  unfold applyOcrStep applyCorrectionsAmendedStep
  by_cases h1 : p.context_type = "any" <;>
    by_cases h2 : context = "any" <;>
      by_cases h3 : p.context_type = context <;>
        simp [h1, h2, h3]

/-- C2 counterexample: with one enabled rule of context type `"date"` and call
context `"any"`, the code applies the rule (the loop only filters when both
contexts are specific), while the claim's reading skips it; the corrected
texts and boosts differ. -/
theorem apply_ocr_corrections_spec_mismatch :
    apply_ocr_corrections [c2Pattern] "a".data "any" ≠
      applyCorrectionsSpec [c2Pattern] "a".data "any" := by
  have h1 : (apply_ocr_corrections [c2Pattern] "a".data "any").1 = "b".data := by
    simp [apply_ocr_corrections, applyOcrStep, c2Pattern, occursIn, pyReplace, replaceScan]
  have h2 : (applyCorrectionsSpec [c2Pattern] "a".data "any").1 = "a".data := by
    simp [applyCorrectionsSpec, applyCorrectionsSpecStep, c2Pattern]
  intro h
  rw [h, h2] at h1
  simp at h1

/-- C2 amended: `apply_ocr_corrections` applies exactly the enabled rules whose
context type is `"any"`, or whose call context is `"any"`, or whose context
type equals the call context, replacing all occurrences of `wrongText`
(deleting on the `"EMPTY"` sentinel) as it iterates; it returns the mean
`confidenceBoost` over matched rules capped at `0.5` (`0` when none matched),
and returns empty text unchanged with boost `0`. -/
theorem apply_ocr_corrections_amended (patterns : List OCRPattern)
    (text : List Char) (context : String) :
    apply_ocr_corrections patterns text context =
      applyCorrectionsAmended patterns text context := by
  unfold apply_ocr_corrections applyCorrectionsAmended
  have h : applyOcrStep context = applyCorrectionsAmendedStep context :=
    funext fun st => funext fun p => applyOcrStep_eq_amended context st p
  rw [h]

end CorrectionTheorems

section PriorityTheorems

/-- C9: raising a region's confidence from below the verification threshold to
at or above it, holding text and region type fixed, never increases the
priority score. -/
theorem priority_score_confidence_monotone (region : Region) (c : ℚ)
    (h1 : region.confidence < 1/2) (h2 : 1/2 ≤ c) :
    calculate_priority_score { region with confidence := c } ≤
      calculate_priority_score region := by
  have hc : ¬ (c < 1/2) := not_lt.mpr h2
  unfold calculate_priority_score
  simp only
  rw [if_pos h1, if_neg hc]
  split_ifs <;> norm_num

/-- Witness for C9 at a concrete region whose confidence rises from 0.4 to 1. -/
theorem priority_score_confidence_monotone_witness :
    calculate_priority_score { sampleRegion with confidence := 1 } ≤
      calculate_priority_score sampleRegion :=
  priority_score_confidence_monotone sampleRegion 1 (by norm_num [sampleRegion]) (by norm_num)

end PriorityTheorems

section VerificationSelectionTheorems

theorem collectVerificationRegions_mem (crop : Box → String) (document_id : String) :
    ∀ (l : List Region) (i : ℕ) (v : VerificationRegion),
      v ∈ collectVerificationRegions crop document_id i l →
        3/10 < v.priority_score ∧
          ∃ r ∈ l, v.text = r.text ∧ v.priority_score = calculate_priority_score r := by
  intro l
  induction l with
  | nil => intro i v hv; simp [collectVerificationRegions] at hv
  | cons r rest ih =>
    intro i v hv
    simp only [collectVerificationRegions] at hv
    split_ifs at hv with hs
    · rcases List.mem_cons.mp hv with hv | hv
      · subst hv
        exact ⟨hs, r, List.mem_cons_self r rest, rfl, rfl⟩
      · obtain ⟨hgt, r', hr', ht', hp'⟩ := ih (i + 1) v hv
        exact ⟨hgt, r', List.mem_cons_of_mem r hr', ht', hp'⟩
    · obtain ⟨hgt, r', hr', ht', hp'⟩ := ih (i + 1) v hv
      exact ⟨hgt, r', List.mem_cons_of_mem r hr', ht', hp'⟩

/-- C6: the priority score is the capped sum of the four independent signals,
and `get_regions_for_verification` includes only regions scoring above `0.3`,
sorts them in descending score order, and returns at most ten of them. -/
theorem priority_score_and_selection_spec :
    (∀ region : Region,
        calculate_priority_score region =
          min ((if region.confidence < 1/2 then (2:ℚ)/5 else 0) +
            (if region.region_type = "handwritten" then 3/10 else 0) +
            (if suspicious_chars.any (fun c => occursIn c region.text) then 3/10 else 0) +
            (if (pyStrip region.text).length < 5 then 1/5 else 0)) 1) ∧
    (∀ (regions : List Region) (crop : Box → String) (document_id : String),
        (get_regions_for_verification regions crop document_id).length ≤ 10 ∧
        (∀ v ∈ get_regions_for_verification regions crop document_id,
          3/10 < v.priority_score ∧
            ∃ r ∈ regions, v.text = r.text ∧
              v.priority_score = calculate_priority_score r) ∧
        (get_regions_for_verification regions crop document_id).Pairwise
          (fun a b => b.priority_score ≤ a.priority_score)) := by
  constructor
  · intro region
    unfold calculate_priority_score
    split_ifs <;> norm_num
  · intro regions crop document_id
    refine ⟨?_, ?_, ?_⟩
    · rw [get_regions_for_verification, List.length_take]
      exact min_le_left 10 _
    · intro v hv
      have hv' : v ∈ collectVerificationRegions crop document_id 0 regions := by
        have := List.mem_of_mem_take hv
        exact List.mem_mergeSort.mp this
      exact collectVerificationRegions_mem crop document_id regions 0 v hv'
    · have hsorted :
          ((collectVerificationRegions crop document_id 0 regions).mergeSort
            (fun a b => decide (b.priority_score ≤ a.priority_score))).Pairwise
              (fun a b => b.priority_score ≤ a.priority_score) := by
        have h := @List.sorted_mergeSort VerificationRegion
          (fun a b : VerificationRegion => decide (b.priority_score ≤ a.priority_score))
          (fun a b c hab hbc => by
            simp only [decide_eq_true_eq] at *
            exact le_trans hbc hab)
          (fun a b => by
            simp only [Bool.or_eq_true, decide_eq_true_eq]
            exact le_total b.priority_score a.priority_score)
          (collectVerificationRegions crop document_id 0 regions)
        exact h.imp (fun hab => of_decide_eq_true hab)
      exact hsorted.sublist (List.take_sublist 10 _)

/-- Witness for C6: the selection contract instantiated at a one-region list
whose region scores `0.4 + 0.3 + 0.2 = 0.9` and is returned for verification. -/
theorem priority_score_and_selection_spec_witness :
    3/10 < (9:ℚ)/10 ∧
      ∃ r ∈ [flaggedRegion],
        "x".data = r.text ∧ (9:ℚ)/10 = calculate_priority_score r := by
  have happ := (priority_score_and_selection_spec.2 [flaggedRegion]
    (fun _ => "") "doc").2.1
    { region_id := 0, text := "x".data, bbox := ⟨0, 0, 4, 4⟩, confidence := 0,
      region_type := "handwritten", cropped_image_b64 := "", priority_score := 9/10,
      document_id := "doc" }
  have hmem :
      ({ region_id := 0, text := "x".data, bbox := ⟨0, 0, 4, 4⟩, confidence := 0,
         region_type := "handwritten", cropped_image_b64 := "", priority_score := 9/10,
         document_id := "doc" } : VerificationRegion) ∈
        get_regions_for_verification [flaggedRegion] (fun _ => "") "doc" := by
    have hscore : calculate_priority_score flaggedRegion = 9/10 := by
      simp +decide only [calculate_priority_score, flaggedRegion, suspicious_chars,
        occursIn, pyStrip, List.any_cons, List.any_nil]
      norm_num
    simp [get_regions_for_verification, collectVerificationRegions, hscore]
    norm_num [flaggedRegion]
  exact happ hmem

end VerificationSelectionTheorems

section ReconcilerTheorems

theorem boxes_overlap_unfold {b1 b2 : Box} (h : boxes_overlap b1 b2 = true) :
    (if b2.x1 > b1.x2 then |b2.x1 - b1.x2| else |b1.x1 - b2.x2|) ≤ 50 ∧
    max b1.x1 b2.x1 ≤ min b1.x2 b2.x2 ∧ max b1.y1 b2.y1 ≤ min b1.y2 b2.y2 ∧
    3/10 ≤
      (if 0 < (b1.x2 - b1.x1) * (b1.y2 - b1.y1) + (b2.x2 - b2.x1) * (b2.y2 - b2.y1) -
          (min b1.x2 b2.x2 - max b1.x1 b2.x1) * (min b1.y2 b2.y2 - max b1.y1 b2.y1) then
        (min b1.x2 b2.x2 - max b1.x1 b2.x1) * (min b1.y2 b2.y2 - max b1.y1 b2.y1) /
          ((b1.x2 - b1.x1) * (b1.y2 - b1.y1) + (b2.x2 - b2.x1) * (b2.y2 - b2.y1) -
            (min b1.x2 b2.x2 - max b1.x1 b2.x1) * (min b1.y2 b2.y2 - max b1.y1 b2.y1))
      else 0) := by
  unfold boxes_overlap at h
  simp only at h
  by_cases hgap : (if b2.x1 > b1.x2 then |b2.x1 - b1.x2| else |b1.x1 - b2.x2|) > 50
  · rw [if_pos hgap] at h
    exact absurd h (by simp)
  · rw [if_neg hgap] at h
    by_cases hsep : min b1.x2 b2.x2 < max b1.x1 b2.x1 ∨ min b1.y2 b2.y2 < max b1.y1 b2.y1
    · rw [if_pos hsep] at h
      exact absurd h (by simp)
    · rw [if_neg hsep] at h
      rw [decide_eq_true_eq] at h
      push_neg at hgap hsep
      exact ⟨hgap, hsep.1, hsep.2, h⟩

theorem boxes_overlap_props {b1 b2 : Box} (h : boxes_overlap b1 b2 = true) :
    3/10 ≤ iou b1 b2 ∧ b1.x1 < b2.x2 ∧ b2.x1 < b1.x2 ∧ b1.x1 < b1.x2 ∧
      b2.x1 < b2.x2 ∧ b2.x2 ≤ b1.x1 + 50 := by
  obtain ⟨hgap, hx, hy, hiou⟩ := boxes_overlap_unfold h
  by_cases hu : 0 < (b1.x2 - b1.x1) * (b1.y2 - b1.y1) + (b2.x2 - b2.x1) * (b2.y2 - b2.y1) -
      (min b1.x2 b2.x2 - max b1.x1 b2.x1) * (min b1.y2 b2.y2 - max b1.y1 b2.y1)
  case neg =>
    rw [if_neg hu] at hiou
    norm_num at hiou
  case pos =>
    rw [if_pos hu] at hiou
    have hinter : 0 <
        (min b1.x2 b2.x2 - max b1.x1 b2.x1) * (min b1.y2 b2.y2 - max b1.y1 b2.y1) := by
      have hmul := (le_div_iff₀ hu).mp hiou
      nlinarith
    have hxf : 0 < min b1.x2 b2.x2 - max b1.x1 b2.x1 := by
      rcases (sub_nonneg.mpr hx).lt_or_eq with hlt | heq
      · exact hlt
      · rw [← heq] at hinter
        simp at hinter
    have hyf : 0 < min b1.y2 b2.y2 - max b1.y1 b2.y1 := by
      rcases (sub_nonneg.mpr hy).lt_or_eq with hlt | heq
      · exact hlt
      · rw [← heq] at hinter
        simp at hinter
    have hmaxmin : max b1.x1 b2.x1 < min b1.x2 b2.x2 := by linarith
    have e1 : b1.x1 ≤ max b1.x1 b2.x1 := le_max_left _ _
    have e2 : b2.x1 ≤ max b1.x1 b2.x1 := le_max_right _ _
    have e3 : min b1.x2 b2.x2 ≤ b1.x2 := min_le_left _ _
    have e4 : min b1.x2 b2.x2 ≤ b2.x2 := min_le_right _ _
    have hx2 : b1.x1 < b2.x2 := by linarith
    have hx3 : b2.x1 < b1.x2 := by linarith
    refine ⟨?_, hx2, hx3, by linarith, by linarith, ?_⟩
    · unfold iou
      simp only
      rw [max_eq_right (sub_nonneg.mpr hx), max_eq_right (sub_nonneg.mpr hy), if_pos hu]
      exact hiou
    · have hcond : ¬ (b2.x1 > b1.x2) := not_lt.mpr (le_of_lt hx3)
      rw [if_neg hcond, abs_of_neg (by linarith : b1.x1 - b2.x2 < 0)] at hgap
      linarith

theorem iou_comm (b1 b2 : Box) : iou b1 b2 = iou b2 b1 := by
  unfold iou
  simp only
  rw [min_comm b1.x2 b2.x2, max_comm b1.x1 b2.x1, min_comm b1.y2 b2.y2,
    max_comm b1.y1 b2.y1,
    add_comm ((b1.x2 - b1.x1) * (b1.y2 - b1.y1)) ((b2.x2 - b2.x1) * (b2.y2 - b2.y1))]

theorem smartClusters_shape :
    ∀ (l : List Detection) (c : List Detection), c ∈ smartClusters l →
      ∃ s t, c = s :: t ∧ (∀ x ∈ c, x ∈ l) ∧
        ∀ x ∈ t, boxes_overlap s.bbox x.bbox = true := by
  have main : ∀ (n : ℕ) (l : List Detection), l.length ≤ n →
      ∀ c ∈ smartClusters l,
        ∃ s t, c = s :: t ∧ (∀ x ∈ c, x ∈ l) ∧
          ∀ x ∈ t, boxes_overlap s.bbox x.bbox = true := by
    intro n
    induction n with
    | zero =>
      intro l hl c hc
      have hnil : l = [] := List.length_eq_zero.mp (Nat.le_zero.mp hl)
      subst hnil
      simp [smartClusters] at hc
    | succ n ih =>
      intro l hl c hc
      match l with
      | [] => simp [smartClusters] at hc
      | d :: rest =>
        rw [smartClusters] at hc
        rcases List.mem_cons.mp hc with hc | hc
        · refine ⟨d, rest.filter (fun e => boxes_overlap d.bbox e.bbox), hc, ?_, ?_⟩
          · intro x hx
            rw [hc] at hx
            rcases List.mem_cons.mp hx with hx | hx
            · exact hx ▸ List.mem_cons_self d rest
            · exact List.mem_cons_of_mem d (List.mem_of_mem_filter hx)
          · intro x hx
            exact (List.mem_filter.mp hx).2
        · have hlen : (rest.filter (fun e => !boxes_overlap d.bbox e.bbox)).length ≤ n := by
            have := List.length_filter_le (fun e => !boxes_overlap d.bbox e.bbox) rest
            simp only [List.length_cons] at hl
            omega
          obtain ⟨s, t, h1, h2, h3⟩ := ih _ hlen c hc
          exact ⟨s, t, h1,
            fun x hx => List.mem_cons_of_mem d (List.mem_of_mem_filter (h2 x hx)), h3⟩
  intro l
  exact main l.length l le_rfl

/-- C3: two distinct detections whose boxes have IoU below the `0.3` threshold
and horizontal gap above `50` px are never placed into the same cluster by the
reconciler, and hence never contribute to the same merged region. -/
theorem separated_detections_never_same_region (dets : List Detection)
    (a b : Detection) (hab : a ≠ b)
    (hiou : iou a.bbox b.bbox < 3/10) (hgap : 50 < horizontalGap a.bbox b.bbox) :
    ∀ c ∈ smartClusters dets, ¬ (a ∈ c ∧ b ∈ c) := by
  rintro c hc ⟨ha, hb⟩
  obtain ⟨s, t, hct, hsub, hover⟩ := smartClusters_shape dets c hc
  subst hct
  rcases List.mem_cons.mp ha with ha' | ha' <;> rcases List.mem_cons.mp hb with hb' | hb'
  · exact hab (ha'.trans hb'.symm)
  · subst ha'
    have hp := (boxes_overlap_props (hover b hb')).1
    linarith
  · subst hb'
    have hp := (boxes_overlap_props (hover a ha')).1
    rw [iou_comm] at hiou
    linarith
  · obtain ⟨_, ha2, ha3, _, ha5, ha6⟩ := boxes_overlap_props (hover a ha')
    obtain ⟨_, hb2, hb3, _, hb5, hb6⟩ := boxes_overlap_props (hover b hb')
    unfold horizontalGap at hgap
    split_ifs at hgap <;> linarith

/-- Witness for C3 at two concrete detections 90 px apart. -/
theorem separated_detections_never_same_region_witness :
    ¬ (farDetA ∈ [farDetA] ∧ farDetB ∈ [farDetA]) :=
  separated_detections_never_same_region [farDetA, farDetB] farDetA farDetB
    (by simp [farDetA, farDetB])
    (by norm_num [iou, farDetA, farDetB])
    (by norm_num [horizontalGap, farDetA, farDetB])
    [farDetA]
    (by norm_num [smartClusters, boxes_overlap, farDetA, farDetB])

/-- C1 (failing input): two detections with the identical `60 × 20` box coming
from two different engines are NOT deduplicated: the reconciler returns two
merged regions, because `_boxes_overlap` computes `abs(x1_1 - x2_2)` — the box
width, here `60 > 50` — as the "horizontal gap" of two overlapping boxes and
rejects the pair.  The spec's deduplication invariant requires one region. -/
theorem identical_wide_boxes_not_merged :
    dupDetA.bbox = dupDetB.bbox ∧ dupDetA.engine ≠ dupDetB.engine ∧
      (smart_merge_ocr_results
        [("easyocr", [dupDetA]), ("tesseract", [dupDetB])]).length = 2 := by
  refine ⟨rfl, by simp [dupDetA, dupDetB], ?_⟩
  norm_num [smart_merge_ocr_results, smartClusters, boxes_overlap,
    merge_overlapping_detections, List.filterMap_cons, pyMaxBy, listMin, listMax,
    detect_region_type, dupDetA, dupDetB]

theorem pyMaxBy_spec {α : Type} (key : α → ℚ) :
    ∀ (l : List α) (b : α),
      (pyMaxBy key b l = b ∨ pyMaxBy key b l ∈ l) ∧
        key b ≤ key (pyMaxBy key b l) ∧
        ∀ x ∈ l, key x ≤ key (pyMaxBy key b l) := by
  intro l
  induction l with
  | nil => exact fun b => ⟨Or.inl rfl, le_refl _, by simp⟩
  | cons x rest ih =>
    intro b
    rw [pyMaxBy]
    by_cases hk : key x > key b
    · rw [if_pos hk]
      obtain ⟨m1, m2, m3⟩ := ih x
      refine ⟨?_, le_trans (le_of_lt hk) m2, ?_⟩
      · rcases m1 with m1 | m1
        · exact Or.inr (by rw [m1]; exact List.mem_cons_self x rest)
        · exact Or.inr (List.mem_cons_of_mem x m1)
      · intro y hy
        rcases List.mem_cons.mp hy with hy | hy
        · exact hy ▸ m2
        · exact m3 y hy
    · rw [if_neg hk]
      obtain ⟨m1, m2, m3⟩ := ih b
      refine ⟨?_, m2, ?_⟩
      · rcases m1 with m1 | m1
        · exact Or.inl m1
        · exact Or.inr (List.mem_cons_of_mem x m1)
      · intro y hy
        rcases List.mem_cons.mp hy with hy | hy
        · exact hy ▸ le_trans (not_lt.mp hk) m2
        · exact m3 y hy

/-- C4: the merged region's text is the text of one cluster member — never a
synthesized string — namely a member maximizing `confidence * len(text)`. -/
theorem merged_text_is_best_member (dets : List Detection) (hne : dets ≠ []) :
    ∃ r, merge_overlapping_detections dets = some r ∧
      ∃ m ∈ dets, r.text = m.text ∧
        ∀ x ∈ dets,
          x.confidence * (x.text.length : ℚ) ≤ m.confidence * (m.text.length : ℚ) := by
  match dets with
  | [] => exact absurd rfl hne
  | d :: rest =>
    refine ⟨_, rfl, ?_⟩
    obtain ⟨m1, m2, m3⟩ :=
      pyMaxBy_spec (fun x : Detection => x.confidence * (x.text.length : ℚ)) rest d
    refine ⟨pyMaxBy (fun x : Detection => x.confidence * (x.text.length : ℚ)) d rest,
      ?_, rfl, ?_⟩
    · rcases m1 with m1 | m1
      · exact by rw [m1]; exact List.mem_cons_self d rest
      · exact List.mem_cons_of_mem d m1
    · intro x hx
      rcases List.mem_cons.mp hx with hx | hx
      · exact hx ▸ m2
      · exact m3 x hx

/-- Witness for C4 at a concrete one-detection cluster. -/
theorem merged_text_is_best_member_witness :
    ∃ r, merge_overlapping_detections [soloDet] = some r ∧
      ∃ m ∈ [soloDet], r.text = m.text ∧
        ∀ x ∈ [soloDet],
          x.confidence * (x.text.length : ℚ) ≤ m.confidence * (m.text.length : ℚ) :=
  merged_text_is_best_member [soloDet] (by simp)

/-- C5: the merged region's confidence is the arithmetic mean of the member
confidences, and lies in `[0, 1]` whenever all member confidences do. -/
theorem merged_confidence_is_mean (dets : List Detection) (hne : dets ≠ [])
    (hconf : ∀ d ∈ dets, 0 ≤ d.confidence ∧ d.confidence ≤ 1) :
    ∃ r, merge_overlapping_detections dets = some r ∧
      r.confidence = (dets.map (·.confidence)).sum / (dets.length : ℚ) ∧
      0 ≤ r.confidence ∧ r.confidence ≤ 1 := by
  match dets with
  | [] => exact absurd rfl hne
  | d :: rest =>
    refine ⟨_, rfl, rfl, ?_, ?_⟩
    · apply div_nonneg
      · apply List.sum_nonneg
        intro y hy
        obtain ⟨d', hd', hy'⟩ := List.mem_map.mp hy
        exact hy' ▸ (hconf d' hd').1
      · exact Nat.cast_nonneg _
    · have hlen : 0 < (((d :: rest).length : ℕ) : ℚ) := by
        exact_mod_cast List.length_pos.mpr (List.cons_ne_nil d rest)
      rw [div_le_one hlen]
      have hsum := List.sum_le_card_nsmul ((d :: rest).map (·.confidence)) 1 ?_
      · rw [List.length_map, nsmul_eq_mul, mul_one] at hsum
        exact hsum
      · intro y hy
        obtain ⟨d', hd', hy'⟩ := List.mem_map.mp hy
        exact hy' ▸ (hconf d' hd').2

/-- Witness for C5 at a concrete one-detection cluster with confidence `1`. -/
theorem merged_confidence_is_mean_witness :
    ∃ r, merge_overlapping_detections [soloDet] = some r ∧
      r.confidence = ([soloDet].map (·.confidence)).sum / (([soloDet].length : ℕ) : ℚ) ∧
      0 ≤ r.confidence ∧ r.confidence ≤ 1 :=
  merged_confidence_is_mean [soloDet] (by simp)
    (by intro d hd; rw [List.mem_singleton] at hd; subst hd; norm_num [soloDet])

end ReconcilerTheorems

section RuleStoreTheorems

theorem load_ocr_patterns_length (rows : List PatternRow) :
    (load_ocr_patterns rows).length = (rows.filter (·.enabled)).length := by
  unfold load_ocr_patterns
  rw [List.length_mergeSort, List.length_map]

/-- C7: appending a pattern whose `(wrongText, correctText)` pair is new to the
stored rows adds exactly one enabled rule after reload, while appending an
exact duplicate leaves the reloaded rule count unchanged. -/
theorem rule_append_roundtrip (rows : List PatternRow) (p : NewPatternDict)
    (hen : p.enabled = true) :
    ((¬ ∃ r ∈ rows, r.wrong_text = p.wrong_text ∧ r.correct_text = p.correct_text) →
      (load_ocr_patterns (update_pattern_csv rows [p])).length =
        (load_ocr_patterns rows).length + 1) ∧
    ((∃ r ∈ rows, r.wrong_text = p.wrong_text ∧ r.correct_text = p.correct_text) →
      (load_ocr_patterns (update_pattern_csv rows [p])).length =
        (load_ocr_patterns rows).length) := by
  constructor
  · intro hno
    have hany : rows.any
        (fun r => decide (r.wrong_text = p.wrong_text ∧ r.correct_text = p.correct_text)) =
          false := by
      rw [List.any_eq_false]
      intro r hr
      simp only [decide_eq_true_eq]
      exact fun hcon => hno ⟨r, hr, hcon⟩
    have hcond : ¬ (rows ≠ [] ∧ rows.any
        (fun r => decide (r.wrong_text = p.wrong_text ∧ r.correct_text = p.correct_text)) =
          true) := by
      rintro ⟨-, h2⟩
      rw [hany] at h2
      exact Bool.false_ne_true h2
    have hupd : update_pattern_csv rows [p] =
        rows ++ [dictToRow p (if rows = [] then 1 else maxPatternId rows + 1)] := by
      unfold update_pattern_csv updateCsvStep
      simp only [List.foldl_cons, List.foldl_nil]
      rw [if_neg hcond]
    rw [hupd, load_ocr_patterns_length, load_ocr_patterns_length, List.filter_append,
      List.length_append]
    simp [dictToRow, hen]
  · rintro ⟨r, hr, hcon⟩
    have hany : rows.any
        (fun r => decide (r.wrong_text = p.wrong_text ∧ r.correct_text = p.correct_text)) =
          true :=
      List.any_eq_true.mpr ⟨r, hr, decide_eq_true hcon⟩
    have hupd : update_pattern_csv rows [p] = rows := by
      unfold update_pattern_csv updateCsvStep
      simp only [List.foldl_cons, List.foldl_nil]
      rw [if_pos ⟨List.ne_nil_of_mem hr, hany⟩]
    rw [hupd]

/-- Witness for C7: appending a non-duplicate to a one-row store yields two
enabled rules after reload. -/
theorem rule_append_roundtrip_witness :
    (load_ocr_patterns (update_pattern_csv [baseRow] [newDict])).length =
      (load_ocr_patterns [baseRow]).length + 1 :=
  (rule_append_roundtrip [baseRow] newDict rfl).1 (by decide)

/-- C8 counterexample: with one existing pattern of id `2`, the in-memory
append `add_pattern_from_verification` assigns the new pattern the id
`len + 1 = 2`, which equals the id of the existing pattern — the freshly
assigned id is not distinct from every existing rule id. -/
theorem append_id_collides :
    ∃ q ∈ (add_pattern_from_verification [oldPat] "x".data "y".data "Text" "any").1,
      q ≠ oldPat ∧ q.pattern_id = oldPat.pattern_id := by
  have hcond : ([oldPat].any
      (fun e => decide (e.wrong_text = "x".data ∧ e.correct_text = "y".data))) = false := by
    decide
  refine ⟨{ pattern_id := ([oldPat].length : ℤ) + 1, wrong_text := "x".data,
            correct_text := "y".data, context_type := "any", priority := 1,
            confidence_boost := 1/5, enabled := true, language := "ANY",
            notes := "Auto-generated from user verification" }, ?_, ?_, ?_⟩
  · unfold add_pattern_from_verification
    rw [if_neg (by rw [hcond]; exact Bool.false_ne_true)]
    exact List.mem_mergeSort.mpr (List.mem_append_right _ (List.mem_singleton.mpr rfl))
  · simp +decide [oldPat]
  · simp [oldPat]

theorem foldl_max_init_le (xs : List ℤ) : ∀ a : ℤ, a ≤ xs.foldl max a := by
  induction xs with
  | nil => exact fun a => le_refl a
  | cons x t ih =>
    intro a
    rw [List.foldl_cons]
    exact le_trans (le_max_left a x) (ih (max a x))

theorem mem_le_foldl_max (xs : List ℤ) : ∀ (a : ℤ), ∀ x ∈ xs, x ≤ xs.foldl max a := by
  induction xs with
  | nil => intro a x hx; simp at hx
  | cons y t ih =>
    intro a x hx
    rw [List.foldl_cons]
    rcases List.mem_cons.mp hx with hx | hx
    · subst hx
      exact le_trans (le_max_right a x) (foldl_max_init_le t (max a x))
    · exact ih (max a y) x hx

theorem le_maxPatternId (rows : List PatternRow) :
    ∀ r ∈ rows, r.pattern_id ≤ maxPatternId rows := by
  match rows with
  | [] => intro r hr; simp at hr
  | r0 :: rest =>
    intro r hr
    rw [maxPatternId]
    rcases List.mem_cons.mp hr with hr | hr
    · subst hr
      exact foldl_max_init_le (rest.map (·.pattern_id)) r.pattern_id
    · exact mem_le_foldl_max (rest.map (·.pattern_id)) r0.pattern_id r.pattern_id
        (List.mem_map_of_mem (·.pattern_id) hr)

theorem updateCsvStep_eq (df : List PatternRow) (nid : ℤ) (p : NewPatternDict) :
    updateCsvStep (df, nid) p =
      if df ≠ [] ∧ df.any
          (fun r => decide (r.wrong_text = p.wrong_text ∧ r.correct_text = p.correct_text)) then
        (df, nid + 1)
      else (df ++ [dictToRow p nid], nid + 1) := rfl

theorem updateCsv_fold_split :
    ∀ (ps : List NewPatternDict) (df : List PatternRow) (nid : ℤ),
      ∃ rest, (ps.foldl updateCsvStep (df, nid)).1 = df ++ rest ∧
        (∀ r ∈ rest, nid ≤ r.pattern_id) ∧
        rest.Pairwise (fun a b => a.pattern_id < b.pattern_id) := by
  intro ps
  induction ps with
  | nil =>
    intro df nid
    exact ⟨[], by simp, by simp, List.Pairwise.nil⟩
  | cons p ps ih =>
    intro df nid
    rw [List.foldl_cons, updateCsvStep_eq]
    by_cases hdup : df ≠ [] ∧ df.any
        (fun r => decide (r.wrong_text = p.wrong_text ∧ r.correct_text = p.correct_text)) = true
    · rw [if_pos hdup]
      obtain ⟨rest, h1, h2, h3⟩ := ih df (nid + 1)
      exact ⟨rest, h1, fun r hr => le_trans (by omega) (h2 r hr), h3⟩
    · rw [if_neg hdup]
      obtain ⟨rest, h1, h2, h3⟩ := ih (df ++ [dictToRow p nid]) (nid + 1)
      refine ⟨dictToRow p nid :: rest, ?_, ?_, ?_⟩
      · rw [h1, List.append_assoc, List.singleton_append]
      · intro r hr
        rcases List.mem_cons.mp hr with hr | hr
        · subst hr
          simp [dictToRow]
        · exact le_trans (by omega) (h2 r hr)
      · refine List.Pairwise.cons (fun b hb => ?_) h3
        have hb2 := h2 b hb
        simp only [dictToRow]
        omega

/-- C8 amended: the persisted CSV append leaves the existing rows untouched and
appends rows whose ids come from a strictly increasing counter that starts
above every existing id; the in-memory append from verification assigns the id
`count + 1`, which is distinct from every existing id provided every existing
id is at most the pattern count (as the counterexample shows, it can collide
otherwise), and it never drops or renumbers an existing pattern. -/
theorem append_ids_fresh_amended :
    (∀ (rows : List PatternRow) (ps : List NewPatternDict),
      (update_pattern_csv rows ps).take rows.length = rows ∧
      ((update_pattern_csv rows ps).drop rows.length).Pairwise
        (fun a b => a.pattern_id < b.pattern_id) ∧
      ∀ r ∈ (update_pattern_csv rows ps).drop rows.length,
        ∀ e ∈ rows, e.pattern_id < r.pattern_id) ∧
    (∀ (patterns : List OCRPattern) (wrong correct : List Char)
        (category context_type : String),
      (∀ p ∈ patterns, p.pattern_id ≤ (patterns.length : ℤ)) →
      (∀ e ∈ patterns,
        e ∈ (add_pattern_from_verification patterns wrong correct category context_type).1) ∧
      ∀ q ∈ (add_pattern_from_verification patterns wrong correct category context_type).1,
        q ∈ patterns ∨
          (q.pattern_id = (patterns.length : ℤ) + 1 ∧
            ∀ e ∈ patterns, e.pattern_id ≠ q.pattern_id)) := by
  constructor
  · intro rows ps
    obtain ⟨rest, h1, h2, h3⟩ :=
      updateCsv_fold_split ps rows (if rows = [] then 1 else maxPatternId rows + 1)
    have hu : update_pattern_csv rows ps = rows ++ rest := h1
    refine ⟨by rw [hu, List.take_left], by rw [hu, List.drop_left]; exact h3, ?_⟩
    intro r hr e he
    rw [hu, List.drop_left] at hr
    have hnid := h2 r hr
    rw [if_neg (List.ne_nil_of_mem he)] at hnid
    have hle := le_maxPatternId rows e he
    omega
  · intro patterns wrong correct category context_type hids
    unfold add_pattern_from_verification
    simp only
    by_cases hdup : patterns.any
        (fun e => decide (e.wrong_text = wrong ∧ e.correct_text = correct)) = true
    · rw [if_pos hdup]
      exact ⟨fun e he => he, fun q hq => Or.inl hq⟩
    · rw [if_neg hdup]
      constructor
      · intro e he
        exact List.mem_mergeSort.mpr (List.mem_append_left _ he)
      · intro q hq
        rcases List.mem_append.mp (List.mem_mergeSort.mp hq) with hq' | hq'
        · exact Or.inl hq'
        · rw [List.mem_singleton] at hq'
          subst hq'
          refine Or.inr ⟨rfl, ?_⟩
          intro e he hcon
          have hle := hids e he
          simp only at hcon
          omega

/-- Witness for the amended C8: on a store whose single pattern has id `1`,
the in-memory append keeps the old pattern and gives any non-pre-existing
result pattern the fresh id `2`. -/
theorem append_ids_fresh_amended_witness :
    (∀ e ∈ [patOne],
      e ∈ (add_pattern_from_verification [patOne] "adn".data "and".data "Text" "any").1) ∧
    ∀ q ∈ (add_pattern_from_verification [patOne] "adn".data "and".data "Text" "any").1,
      q ∈ [patOne] ∨
        (q.pattern_id = (([patOne] : List OCRPattern).length : ℤ) + 1 ∧
          ∀ e ∈ [patOne], e.pattern_id ≠ q.pattern_id) :=
  append_ids_fresh_amended.2 [patOne] "adn".data "and".data "Text" "any"
    (by intro p hp; rw [List.mem_singleton] at hp; subst hp; simp [patOne])

end RuleStoreTheorems

end HybridOCR
